import Mathlib

/-!
# Verification of the SketchUp Ruby debugger front-end adapters

Shallow embedding of the two user-interface front-ends of the debugger:
the remote XML-over-TCP server (`src/DebugServer/UI/RDIP/RDIP.cpp`) and the
Windows console (`src/DebugServer/UI/Console/Win/ConsoleUI.cpp`).

Strings are modelled as `List Char`; the debug engine (`IDebugServer`,
external to this repository) is modelled as a pure response oracle together
with a log of the calls issued to it.  C++ exceptions that escape a function
are modelled by an `Option`-valued result being `none`.
-/

namespace RDbg

/-- The whitespace class of ECMAScript `\s` (restricted to 8-bit input, as the
wire protocol is 8-bit) and of C `isspace`. -/
def isWs (c : Char) : Bool :=
  c = ' ' || c = '\t' || c = '\n' || c = '\r' || c = Char.ofNat 11 || c = Char.ofNat 12

/-- The backslash character (written via its code to keep literals simple). -/
def bslash : Char := Char.ofNat 92

/-- The apostrophe character. -/
def apos : Char := Char.ofNat 39

/-- Drop leading `\s*`. -/
def dropWs : List Char → List Char
  | [] => []
  | c :: rest => if isWs c then dropWs rest else c :: rest

/-! ## Data model (`Common/BreakPoint.h`, `Common/StackFrame.h`, `IDebugServer.h`) -/

/-- `BreakPoint { index, file, line, enabled }`; `index` is assigned by the
engine. -/
structure BreakPoint where
  index : Nat
  file : String
  line : Nat
  enabled : Bool
deriving DecidableEq

/-- `StackFrame { name, file, line }`. -/
structure StackFrame where
  name : String
  file : String
  line : Nat
deriving DecidableEq

/-- `Variable { name, value, type, object_id, has_children }`; values arrive
already stringified by the engine. -/
structure Variable where
  name : String
  value : String
  type : String
  object_id : Nat
  has_children : Bool
deriving DecidableEq

/-- A call into the debug engine (`IDebugServer`), recorded in order. -/
inductive EngineCall where
  | addBreakPoint (bp : BreakPoint)
  | removeBreakPoint (idx : Nat)
  | step | stepOut | stepOver | stop
  | getStackFrames | getActiveFrameIndex
  | setActiveFrameIndex (n : Nat)
  | shiftActiveFrame (up : Bool)
  | getBreakPoints
  | getLocalVariables | getGlobalVariables | getInstanceVariables (oid : Nat)
  | evaluateExpression (e : String)
  | getCodeLines (from_ to_ : Nat) | getBreakLineNumber
deriving DecidableEq

/-- The debug engine modelled as a pure response oracle: each query returns a
fixed snapshot, `addBreakPoint` returns the success flag together with the
index the engine assigns into `bp.index` (the C++ passes `bp` by reference). -/
structure Engine where
  addBreakPoint : BreakPoint → Bool × Nat
  removeBreakPoint : Nat → Bool
  breakPoints : List BreakPoint
  isStopped : Bool
  stackFrames : List StackFrame
  activeFrameIndex : Nat
  localVariables : List Variable
  globalVariables : List Variable
  instanceVariables : Nat → List Variable
  evaluateExpression : String → Variable
  codeLines : List (Nat × String)
  breakLineNumber : Nat

/-! ## XML escaping (`RDIP.cpp`, `encodeXml`, lines 175-182)

`boost::replace_all(s, pat, rep)` with a single-character pattern replaces
every occurrence of that character, left to right. -/

/-- `boost::replace_all` for a single-character pattern. -/
def replaceAllChar (c : Char) (rep : List Char) : List Char → List Char
  | [] => []
  | x :: xs => if x = c then rep ++ replaceAllChar c rep xs else x :: replaceAllChar c rep xs

/-- `encodeXml` replaces `&` first, then `"`, `<`, `>`, `'`, exactly in the
order of the source. -/
def encodeXml (s : List Char) : List Char :=
  replaceAllChar apos "&apos;".toList
    (replaceAllChar '>' "&gt;".toList
      (replaceAllChar '<' "&lt;".toList
        (replaceAllChar '"' "&quot;".toList
          (replaceAllChar '&' "&amp;".toList s))))

/-- String-level wrapper for `encodeXml`. -/
def encodeXmlS (s : String) : String := ⟨encodeXml s.toList⟩

/-- Character-wise description of the escaping: each of the five special
characters maps to its entity, everything else is passed through. -/
def encChar (c : Char) : List Char :=
  if c = '&' then "&amp;".toList
  else if c = '"' then "&quot;".toList
  else if c = '<' then "&lt;".toList
  else if c = '>' then "&gt;".toList
  else if c = apos then "&apos;".toList
  else [c]

/-- Modelled from the spec: the entity decoding a standard XML parser applies
to an attribute value.  `none` models a parse failure (a raw `<`, or an `&`
that does not begin one of the five entities). -/
def decodeXml : List Char → Option (List Char)
  | [] => some []
  | c :: rest =>
    if c = '&' then
      match rest with
      | 'a' :: 'm' :: 'p' :: ';' :: t => (decodeXml t).map (fun u => '&' :: u)
      | 'q' :: 'u' :: 'o' :: 't' :: ';' :: t => (decodeXml t).map (fun u => '"' :: u)
      | 'l' :: 't' :: ';' :: t => (decodeXml t).map (fun u => '<' :: u)
      | 'g' :: 't' :: ';' :: t => (decodeXml t).map (fun u => '>' :: u)
      | 'a' :: 'p' :: 'o' :: 's' :: ';' :: t => (decodeXml t).map (fun u => apos :: u)
      | _ => none
    else if c = '<' then none
    else (decodeXml rest).map (fun u => c :: u)

/-! ## Numeric argument conversion -/

/-- Decimal value of a digit string. -/
def digitsToNat (l : List Char) : Nat :=
  l.foldl (fun a c => a * 10 + (c.toNat - 48)) 0

/-- Helper for `lexicalCastSizeT`: convert the part after an optional sign.
The string must be a non-empty digit run whose magnitude fits in 64 bits;
with a minus sign the value is negated modulo `2^64`, as boost's
unsigned-target parser does. -/
def lexicalCastSizeTDigits (d : List Char) (neg : Bool) : Option Nat :=
  if d ≠ [] ∧ d.all (·.isDigit) = true ∧ digitsToNat d < 2 ^ 64 then
    some (if neg then (2 ^ 64 - digitsToNat d) % 2 ^ 64 else digitsToNat d)
  else none

/-- `boost::lexical_cast<size_t>`: boost's parser for unsigned targets skips
a leading `+`, wraps a `-`-led value modulo `2^64`, and otherwise requires a
non-empty digit run whose magnitude fits in 64 bits; anything else (non-digit
text, an empty capture, a magnitude of `2^64` or more) throws
`bad_lexical_cast`, modelled as `none`. -/
def lexicalCastSizeT (l : List Char) : Option Nat :=
  match l with
  | '-' :: d => lexicalCastSizeTDigits d true
  | '+' :: d => lexicalCastSizeTDigits d false
  | d => lexicalCastSizeTDigits d false

/-- C `atoi`, returning a 32-bit `int`: skip leading whitespace, take an
optional sign and the leading digit run, 0 when there are no digits.  On
overflow the MSVC runtime used by this Windows code base saturates at
`INT_MAX` / `INT_MIN`, which is what the model does (BSD/glibc builds differ
only at or above `2^31`). -/
def atoiVal (l : List Char) : Int :=
  let d := dropWs l
  match d with
  | '-' :: t => -(Int.ofNat (min (digitsToNat (t.takeWhile (·.isDigit))) (2 ^ 31)))
  | '+' :: t => Int.ofNat (min (digitsToNat (t.takeWhile (·.isDigit))) (2 ^ 31 - 1))
  | _ => Int.ofNat (min (digitsToNat (d.takeWhile (·.isDigit))) (2 ^ 31 - 1))

/-- Conversion of the `int` result of `atoi` into the `size_t` field
`bp.line` (reduction mod `2^64`). -/
def toSizeT (i : Int) : Nat := (i % (2 ^ 64 : Int)).toNat

/-- `sscanf(str, "%x", &objectID)`: skip whitespace, optional `0x`/`0X`
prefix, then a hexadecimal digit run; `objectID` keeps its initial 0 when
nothing matches. -/
def isHexDigit (c : Char) : Bool :=
  c.isDigit || ('a' ≤ c && c ≤ 'f') || ('A' ≤ c && c ≤ 'F')

/-- Value of one hexadecimal digit. -/
def hexDigitVal (c : Char) : Nat :=
  if c.isDigit then c.toNat - 48
  else if 'a' ≤ c ∧ c ≤ 'f' then c.toNat - 87
  else c.toNat - 55

/-- See `isHexDigit`; the scan of `sscanf("%x")`. -/
def parseHexScan (l : List Char) : Nat :=
  let d := dropWs l
  let d := if "0x".toList.isPrefixOf d || "0X".toList.isPrefixOf d then d.drop 2 else d
  (d.takeWhile isHexDigit).foldl (fun a c => a * 16 + hexDigitVal c) 0

/-- One hexadecimal output digit (lowercase, as `%x` prints). -/
def hexChar (n : Nat) : Char :=
  if n < 10 then Char.ofNat (48 + n) else Char.ofNat (87 + n)

/-- Fuel-driven hexadecimal rendering helper. -/
def toHexAux : Nat → Nat → List Char → List Char
  | 0, _, acc => acc
  | fuel + 1, n, acc => if n = 0 then acc else toHexAux fuel (n / 16) (hexChar (n % 16) :: acc)

/-- `%x` rendering of a number. -/
def toHex (n : Nat) : String := if n = 0 then "0" else ⟨toHexAux (n + 1) n []⟩

/-! ## The command patterns

Each `std::regex` of the two dispatchers is translated into an executable
matcher on `List Char`, including the greedy/backtracking behaviour of
ECMAScript regexes where it is observable.  (Input reaching the wire
dispatcher has been split on `;` and trimmed, so it contains no newline; the
distinction between `.` and `[^\n]` is therefore not observable.) -/

/-- Remainders of `l` after consuming at least one leading whitespace
character, longest-consumed (greedy) first — the backtracking choices of a
leading `\s+`. -/
def wsRests (l : List Char) : List (List Char) :=
  let k := (l.takeWhile isWs).length
  (List.range k).map (fun i => l.drop (k - i))

/-- Tail of `^\s*b(?:reak)?\s+(?:(.+):)?([^.:]+)$` after the whitespace: the
optional group can only split at the last `:` (any earlier split leaves a `:`
inside `([^.:]+)`), and when it is skipped the whole rest must avoid `.` and
`:`.  Returns (group 1, group 2); an unmatched group 1 is the empty string,
as `std::smatch` converts unmatched sub-matches. -/
def brkTail (rest : List Char) : Option (List Char × List Char) :=
  if rest.contains ':' then
    let rev := rest.reverse
    let aft := (rev.takeWhile (fun c => c ≠ ':')).reverse
    let bef := ((rev.dropWhile (fun c => c ≠ ':')).drop 1).reverse
    if bef ≠ [] ∧ aft ≠ [] ∧ aft.contains '.' = false then some (bef, aft) else none
  else if rest ≠ [] ∧ rest.contains '.' = false then some ([], rest) else none

/-- `reg_brk = ^\s*b(?:reak)?\s+(?:(.+):)?([^.:]+)$` (identical in both
dispatchers). -/
def matchBrkCmd (l : List Char) : Option (List Char × List Char) :=
  let r := dropWs l
  let go := fun (after : List Char) => (wsRests after).findSome? brkTail
  if "break".toList.isPrefixOf r then (go (r.drop 5)) <|> (go (r.drop 1))
  else if "b".toList.isPrefixOf r then go (r.drop 1)
  else none

/-- Tail of `reg_brk_del` after `del`/`delete`: `(?:\s+(\d+))?$`. -/
def delArg : List Char → Option (List Char)
  | [] => some []
  | l =>
    let k := ((l : List Char).takeWhile isWs).length
    if k = 0 then none
    else
      let d := l.drop k
      let ds := d.takeWhile (·.isDigit)
      if ds ≠ [] ∧ ds.length = d.length then some ds else none

/-- `reg_brk_del = ^\s*del(?:ete)?(?:\s+(\d+))?$` (identical in both
dispatchers); the capture is the digit string, or empty when the optional
group is absent. -/
def matchDelCmd (l : List Char) : Option (List Char) :=
  let r := dropWs l
  if "delete".toList.isPrefixOf r then (delArg (r.drop 6)) <|> (delArg (r.drop 3))
  else if "del".toList.isPrefixOf r then delArg (r.drop 3)
  else none

/-- A whole-string keyword alternative such as `^\s*c(?:ont)?$`, given by the
list of accepted spellings. -/
def matchKw (alts : List (List Char)) (l : List Char) : Bool :=
  alts.any (fun a => dropWs l = a)

/-- `reg_brk_list = ^\s*b(?:reak)?$` (console). -/
def matchBrkList : List Char → Bool := matchKw ["b".toList, "break".toList]

/-- `reg_cont = ^\s*c(?:ont)?$`. -/
def matchContCmd : List Char → Bool := matchKw ["c".toList, "cont".toList]

/-- `reg_start = ^\s*start$` (wire). -/
def matchStartCmd : List Char → Bool := matchKw ["start".toList]

/-- `reg_exit = ^\s*exit?$` (wire): the final `t` is optional. -/
def matchExitCmd : List Char → Bool := matchKw ["exi".toList, "exit".toList]

/-- `reg_where = ^\s*w(?:here)?$`. -/
def matchWhereCmd : List Char → Bool := matchKw ["w".toList, "where".toList]

/-- `reg_help = ^\s*h(?:elp)?$` (console). -/
def matchHelpCmd : List Char → Bool := matchKw ["h".toList, "help".toList]

/-- `reg_next = ^\s*n(?:ext)?$`. -/
def matchNextCmd : List Char → Bool := matchKw ["n".toList, "next".toList]

/-- `reg_finish = ^\s*finish?$` (wire): the final `h` is optional. -/
def matchFinishCmd : List Char → Bool := matchKw ["finis".toList, "finish".toList]

/-- `reg_up = ^\s*up?$` (console). -/
def matchUpCmd : List Char → Bool := matchKw ["u".toList, "up".toList]

/-- `reg_down = ^\s*down?$` (console). -/
def matchDownCmd : List Char → Bool := matchKw ["dow".toList, "down".toList]

/-- `reg_list = ^\s*l(?:ist)?$` (console). -/
def matchListCmd : List Char → Bool := matchKw ["l".toList, "list".toList]

/-- `reg_frame = ^\s*f(?:rame)?$` (console, no argument). -/
def matchFrameConsole : List Char → Bool := matchKw ["f".toList, "frame".toList]

/-- `reg_thr_lst = ^\s*th(?:read)? l(?:ist)?$` (wire). -/
def matchThreadListCmd : List Char → Bool :=
  matchKw ["th l".toList, "th list".toList, "thread l".toList, "thread list".toList]

/-- `reg_var_local = ^\s*v(?:ar)? l(?:ocal)?$` (wire). -/
def matchVarLocalCmd : List Char → Bool :=
  matchKw ["v l".toList, "v local".toList, "var l".toList, "var local".toList]

/-- `reg_var_global = ^\s*v(?:ar)? g(?:lobal)?$` (wire). -/
def matchVarGlobalCmd : List Char → Bool :=
  matchKw ["v g".toList, "v global".toList, "var g".toList, "var global".toList]

/-- `reg_frame = ^\s*f(?:rame)? ([0-9]+)$` (wire; note the single literal
space). -/
def matchFrameWire (l : List Char) : Option (List Char) :=
  let r := dropWs l
  let go := fun (after : List Char) =>
    match after with
    | ' ' :: d =>
      let ds := d.takeWhile (·.isDigit)
      if ds ≠ [] ∧ ds.length = d.length then some ds else none
    | _ => none
  if "frame".toList.isPrefixOf r then (go (r.drop 5)) <|> (go (r.drop 1))
  else if "f".toList.isPrefixOf r then go (r.drop 1)
  else none

/-- `reg_step = ^\s*s(?:tep)?\s?` used with `regex_match` (wire): the whole
line is `s`/`step` optionally followed by one whitespace character. -/
def matchStepWire (l : List Char) : Bool :=
  let r := dropWs l
  let tail1 := fun (t : List Char) => t = [] ∨ (t.length = 1 ∧ t.all isWs = true)
  if "step".toList.isPrefixOf r then decide (tail1 (r.drop 4) ∨ tail1 (r.drop 1))
  else if "s".toList.isPrefixOf r then decide (tail1 (r.drop 1))
  else false

/-- `reg_step = ^\s*s(?:tep)?\s?` used with `regex_search` (console): the
match is anchored at the start, everything after it is `what.suffix()`. -/
def matchStepConsole (l : List Char) : Option (List Char) :=
  let r := dropWs l
  let one := fun (t : List Char) =>
    match t with
    | x :: rest => if isWs x then rest else t
    | [] => ([] : List Char)
  if "step".toList.isPrefixOf r then some (one (r.drop 4))
  else if "s".toList.isPrefixOf r then some (one (r.drop 1))
  else none

/-- `reg_eval = ^\s*p\s+` used with `regex_search` (console); returns
`what.suffix()`. -/
def matchEvalCmd (l : List Char) : Option (List Char) :=
  let r := dropWs l
  match r with
  | 'p' :: t =>
    match t with
    | x :: _ => if isWs x then some (dropWs t) else none
    | [] => none
  | _ => none

/-- `reg_var = ^\s*v(ar)?\s+` used with `regex_search` (console); returns
`what.suffix()`. -/
def matchVarCmd (l : List Char) : Option (List Char) :=
  let r := dropWs l
  let go := fun (t : List Char) =>
    match t with
    | x :: _ => if isWs x then some (dropWs t) else none
    | [] => (none : Option (List Char))
  if "var".toList.isPrefixOf r then (go (r.drop 3)) <|> (go (r.drop 1))
  else if "v".toList.isPrefixOf r then go (r.drop 1)
  else none

/-- `reg_var_instance = ^\s*v(?:ar)? i(?:nstance)? (.+)$` (wire). -/
def matchVarInstance (l : List Char) : Option (List Char) :=
  let r := dropWs l
  let afterV : Option (List Char) :=
    if "var ".toList.isPrefixOf r then some (r.drop 4)
    else if "v ".toList.isPrefixOf r then some (r.drop 2)
    else none
  match afterV with
  | none => none
  | some m =>
    let afterI : Option (List Char) :=
      if "instance ".toList.isPrefixOf m then some (m.drop 9)
      else if "i ".toList.isPrefixOf m then some (m.drop 2)
      else none
    match afterI with
    | none => none
    | some e => if e ≠ [] then some e else none

/-- Position-by-position `regex_search` for the unanchored
`reg_var_inspect = v inspect\s+` (wire): try a match here. -/
def varInspectHere (l : List Char) : Option (List Char) :=
  if "v inspect".toList.isPrefixOf l then
    match l.drop 9 with
    | x :: t => if isWs x then some (dropWs (x :: t)) else none
    | [] => none
  else none

/-- Leftmost match of `reg_var_inspect`; returns `what.suffix()`. -/
def matchVarInspect : List Char → Option (List Char)
  | [] => none
  | c :: rest => (varInspectHere (c :: rest)) <|> matchVarInspect rest

/-! ## The wire dispatcher (`RDIP::Connection::evaluateCommand`, lines 184-324) -/

/-- The command grammar of the wire dispatcher, one variant per branch of the
`if`/`else if` regex chain (`start` and `cont` share one branch, `resume`). -/
inductive WireCmd where
  | brk (file line : List Char)
  | brkDel (arg : List Char)
  | resume
  | exitCmd
  | whereCmd
  | threadList
  | frame (arg : List Char)
  | step | finish | next
  | varInspect (expr : List Char)
  | varLocal | varGlobal
  | varInstance (arg : List Char)
  | unknown
deriving DecidableEq

/-- First-match dispatch over the regex chain, in source order. -/
def parseWireCmd (l : List Char) : WireCmd :=
  match matchBrkCmd l with
  | some p => .brk p.1 p.2
  | none =>
  match matchDelCmd l with
  | some a => .brkDel a
  | none =>
  if matchStartCmd l then .resume
  else if matchContCmd l then .resume
  else if matchExitCmd l then .exitCmd
  else if matchWhereCmd l then .whereCmd
  else if matchThreadListCmd l then .threadList
  else
  match matchFrameWire l with
  | some a => .frame a
  | none =>
  if matchStepWire l then .step
  else if matchFinishCmd l then .finish
  else if matchNextCmd l then .next
  else
  match matchVarInspect l with
  | some e => .varInspect e
  | none =>
  if matchVarLocalCmd l then .varLocal
  else if matchVarGlobalCmd l then .varGlobal
  else
  match matchVarInstance l with
  | some a => .varInstance a
  | none => .unknown

/-- The ordered `(pattern, builder)` list the wire regex chain amounts to. -/
def wirePatternList : List (List Char → Option WireCmd) :=
  [fun l => (matchBrkCmd l).map (fun p => .brk p.1 p.2),
   fun l => (matchDelCmd l).map (fun a => .brkDel a),
   fun l => if matchStartCmd l then some .resume else none,
   fun l => if matchContCmd l then some .resume else none,
   fun l => if matchExitCmd l then some .exitCmd else none,
   fun l => if matchWhereCmd l then some .whereCmd else none,
   fun l => if matchThreadListCmd l then some .threadList else none,
   fun l => (matchFrameWire l).map (fun a => .frame a),
   fun l => if matchStepWire l then some .step else none,
   fun l => if matchFinishCmd l then some .finish else none,
   fun l => if matchNextCmd l then some .next else none,
   fun l => (matchVarInspect l).map (fun e => .varInspect e),
   fun l => if matchVarLocalCmd l then some .varLocal else none,
   fun l => if matchVarGlobalCmd l then some .varGlobal else none,
   fun l => (matchVarInstance l).map (fun a => .varInstance a)]

/-- All commands whose pattern accepts the line, in pattern order. -/
def wireCmdMatches (l : List Char) : List WireCmd :=
  wirePatternList.filterMap (fun m => m l)

/-- The one-shot action stored into `server_response_` for the interpreter
thread (`evalExpression` reads `expression_to_eval_` at run time, so it
carries no argument here). -/
inductive ITask where
  | getVars (isLocal : Bool)
  | getInstanceVars (oid : Nat)
  | evalExpr
deriving DecidableEq

/-- One observable step of the wire dispatcher, in execution order: engine
calls, socket writes, log lines, and writes to the shared rendezvous fields. -/
inductive WAction where
  | call (c : EngineCall)
  | send (s : String)
  | log (s : String)
  | setCanContinue (b : Bool)
  | notifyAll
  | setTask (t : Option ITask)
  | setPost (kind : Option String)
  | setExprToEval (e : List Char)
deriving DecidableEq

/-- `<frame .../>` element of the `where` reply (`boost::format` at lines
255/259); the active frame carries `current="yes"`. -/
def renderFrameElem (active i : Nat) (f : StackFrame) : String :=
  if active ≠ i then
    "<frame no=\"" ++ toString i ++ "\" file=\"" ++ encodeXmlS f.file ++ "\" line=\"" ++
      toString f.line ++ "\"/>"
  else
    "<frame no=\"" ++ toString i ++ "\" file=\"" ++ encodeXmlS f.file ++ "\" line=\"" ++
      toString f.line ++ "\" current=\"yes\"/>"

/-- The `<frames>` reply of the wire `where` branch. -/
def framesStr (e : Engine) : String :=
  "<frames>\n" ++
    String.join (e.stackFrames.enum.map (fun p => renderFrameElem e.activeFrameIndex p.1 p.2)) ++
    "</frames>\n"

/-- `wireEval e cmd` is the action trace of one `evaluateCommand` call on one
(already trimmed) command; `none` models an exception escaping the dispatcher
(the uncaught `boost::bad_lexical_cast` of the `del`/`frame` branches). -/
def wireEval (e : Engine) (cmd : List Char) : Option (List WAction) :=
  match parseWireCmd cmd with
  | .brk f ln =>
    let file : String := ⟨replaceAllChar bslash ['/'] f⟩
    let line := toSizeT (atoiVal ln)
    let bp : BreakPoint := ⟨0, file, line, true⟩
    let r := e.addBreakPoint bp
    if r.1 then
      let reply := "<breakpointAdded no=\"" ++ toString r.2 ++ "\" location=\"" ++ file ++
        ":" ++ toString line ++ "\"/>\n"
      some [.call (.addBreakPoint bp), .send reply, .log reply, .log "    => Breakpoint added\n"]
    else
      some [.call (.addBreakPoint bp), .log "Adding breakpoint failed\n."]
  | .brkDel a =>
    match lexicalCastSizeT a with
    | none => none
    | some idx =>
      if e.removeBreakPoint idx then
        let reply := "<breakpointDeleted no=\"" ++ toString idx ++ "\" />\n"
        some [.call (.removeBreakPoint idx), .send reply, .log reply,
          .log "    => Breakpoint deleted\n"]
      else
        some [.call (.removeBreakPoint idx), .log "Breakpoint could not be deleted\n"]
  | .resume => some [.setCanContinue true, .notifyAll]
  | .exitCmd => some [.setCanContinue true, .notifyAll, .call .stop]
  | .whereCmd =>
    some [.call .getStackFrames, .call .getActiveFrameIndex, .log (framesStr e),
      .send (framesStr e)]
  | .threadList => some [.send "<threads>\n<thread id=\"1\" status=\"run\"/>\n</threads>\n"]
  | .frame a =>
    match lexicalCastSizeT a with
    | none => none
    | some n => some [.call (.setActiveFrameIndex n)]
  | .step => some [.call .step, .setCanContinue true, .notifyAll]
  | .finish => some [.call .stepOut, .setCanContinue true, .notifyAll]
  | .next => some [.call .stepOver, .setCanContinue true, .notifyAll]
  | .varInspect expr =>
    some [.setExprToEval expr, .setTask (some .evalExpr), .setPost (some "watch"), .notifyAll]
  | .varLocal => some [.setTask (some (.getVars true)), .setPost (some "local"), .notifyAll]
  | .varGlobal => some [.setTask (some (.getVars false)), .setPost (some "global"), .notifyAll]
  | .varInstance a =>
    let oid := parseHexScan a
    some [.setTask (some (.getInstanceVars oid)), .setPost (some "instance"), .notifyAll]
  | .unknown => some [.log "Unknown command : ", .log ⟨cmd⟩, .log "\n"]

/-- The rendezvous-side fields of `RDIP::Connection` that `evaluateCommand`
writes (`server_can_continue_`, `server_response_`,
`process_server_response_`, `expression_to_eval_`). -/
structure WireState where
  server_can_continue : Bool
  server_response : Option ITask
  process_server_response : Option String
  expression_to_eval : List Char
deriving DecidableEq

/-- Apply one action to the connection state (sends/logs/engine calls do not
change these fields). -/
def applyWAction (st : WireState) : WAction → WireState
  | .setCanContinue b => { st with server_can_continue := b }
  | .setTask t => { st with server_response := t }
  | .setPost k => { st with process_server_response := k }
  | .setExprToEval s => { st with expression_to_eval := s }
  | _ => st

/-- Apply a whole action trace in order. -/
def applyWTrace (st : WireState) (tr : List WAction) : WireState :=
  tr.foldl applyWAction st

/-- The socket writes of a trace, in order. -/
def sendsOf (tr : List WAction) : List String :=
  tr.filterMap (fun a => match a with | .send s => some s | _ => none)

/-- The engine calls of a trace, in order. -/
def callsOf (tr : List WAction) : List EngineCall :=
  tr.filterMap (fun a => match a with | .call c => some c | _ => none)

/-- Whether an action is a log write. -/
def isLog : WAction → Bool
  | .log _ => true
  | _ => false

/-! ## The interpreter-thread side of the wire rendezvous
(`RDIP::Connection::getVariables` / `getInstanceVariables` /
`evalExpression`, lines 346-383, and `sendVariables`, lines 357-373) -/

/-- Run one interpreter task on the interpreter thread, given the current
`expression_to_eval_` and `variables_to_send_`; returns the new buffer, the
new expression, and the engine calls made.  The producers assign (never
append to) the buffer; `evalExpression` first clears it and skips the engine
entirely on an empty expression. -/
def runITask (e : Engine) (expr : List Char) (_buf : List Variable) :
    ITask → List Variable × List Char × List EngineCall
  | .getVars true => (e.localVariables, expr, [.getLocalVariables])
  | .getVars false => (e.globalVariables, expr, [.getGlobalVariables])
  | .getInstanceVars oid => (e.instanceVariables oid, expr, [.getInstanceVariables oid])
  | .evalExpr =>
    if expr = [] then ([], expr, [])
    else ([e.evaluateExpression ⟨expr⟩], [], [.evaluateExpression ⟨expr⟩])

/-- `<variable .../>` line of the `<variables>` reply (`boost::format` at
line 362): `name` and `value` pass through `encodeXml`, `type` is embedded
raw, `objectId` is printed in hexadecimal. -/
def renderVariable (kind : String) (v : Variable) : String :=
  "<variable name=\"" ++ encodeXmlS v.name ++ "\" kind=\"" ++ kind ++ "\" value=\"" ++
    encodeXmlS v.value ++ "\" type=\"" ++ v.type ++ "\" hasChildren=\"" ++
    (if v.has_children then "true" else "false") ++ "\" objectId=\"" ++ toHex v.object_id ++
    "\"/>\n"

/-- `RDIP::Connection::sendVariables`: emit the whole buffer as one
`<variables>` element and clear the buffer. -/
def sendVariables (kind : String) (buf : List Variable) : String × List Variable :=
  ("<variables>\n" ++ String.join (buf.map (renderVariable kind)) ++ "</variables>\n", [])

/-! ## The console dispatcher (`ConsoleUI::EvaluateCommand`, lines 146-286) -/

/-- `need_what_from_server_`. -/
inductive NeedWhat where
  | nothing | evalRequest | globalVars | localVars
deriving DecidableEq

/-- The command grammar of the console dispatcher, one variant per branch of
its regex chain; `other` is the final `else` (evaluate any non-empty line). -/
inductive ConsoleCmd where
  | brkList
  | brkDel (arg : List Char)
  | brkAdd (file line : List Char)
  | cont
  | step (suffix : List Char)
  | next
  | help
  | up
  | down
  | whereFrame
  | listSrc
  | evalExpr (expr : List Char)
  | var (suffix : List Char)
  | other
deriving DecidableEq

/-- First-match dispatch over the console regex chain, in source order. -/
def parseConsole (l : List Char) : ConsoleCmd :=
  if matchBrkList l then .brkList
  else
  match matchDelCmd l with
  | some a => .brkDel a
  | none =>
  match matchBrkCmd l with
  | some p => .brkAdd p.1 p.2
  | none =>
  if matchContCmd l then .cont
  else
  match matchStepConsole l with
  | some suf => .step suf
  | none =>
  if matchNextCmd l then .next
  else if matchHelpCmd l then .help
  else if matchUpCmd l then .up
  else if matchDownCmd l then .down
  else if matchWhereCmd l then .whereFrame
  else if matchFrameConsole l then .whereFrame
  else if matchListCmd l then .listSrc
  else
  match matchEvalCmd l with
  | some expr => .evalExpr expr
  | none =>
  match matchVarCmd l with
  | some suf => .var suf
  | none => .other

/-- The ordered `(pattern, builder)` list the console regex chain amounts to
(the trailing `else` is not a pattern; `where` and `frame` share a branch). -/
def consolePatternList : List (List Char → Option ConsoleCmd) :=
  [fun l => if matchBrkList l then some .brkList else none,
   fun l => (matchDelCmd l).map (fun a => .brkDel a),
   fun l => (matchBrkCmd l).map (fun p => .brkAdd p.1 p.2),
   fun l => if matchContCmd l then some .cont else none,
   fun l => (matchStepConsole l).map (fun s => .step s),
   fun l => if matchNextCmd l then some .next else none,
   fun l => if matchHelpCmd l then some .help else none,
   fun l => if matchUpCmd l then some .up else none,
   fun l => if matchDownCmd l then some .down else none,
   fun l => if matchWhereCmd l then some .whereFrame else none,
   fun l => if matchFrameConsole l then some .whereFrame else none,
   fun l => if matchListCmd l then some .listSrc else none,
   fun l => (matchEvalCmd l).map (fun e => .evalExpr e),
   fun l => (matchVarCmd l).map (fun s => .var s)]

/-- All console commands whose pattern accepts the line, in pattern order. -/
def consoleCmdMatches (l : List Char) : List ConsoleCmd :=
  consolePatternList.filterMap (fun m => m l)

/-- The members of `ConsoleUI` that `EvaluateCommand` reads and writes. -/
structure ConsoleState where
  server_will_continue : Bool
  server_can_continue : Bool
  need_server_response : Bool
  need_what : NeedWhat
  expression_to_evaluate : List Char
deriving DecidableEq

/-- Result of one `ConsoleUI::EvaluateCommand` call: final member state, the
console writes in order, the engine calls in order, whether the condition
variable was notified, and the returned legality flag. -/
structure ConsoleResult where
  state : ConsoleState
  outputs : List String
  calls : List EngineCall
  notified : Bool
  legal : Bool
deriving DecidableEq

/-- The prompt text of `ConsoleUI::WritePrompt` (written after a leading
newline, which is not part of the prompt). -/
def promptString (running : Bool) : String :=
  "sudb (" ++ (if running then "running" else "stopped") ++ "): "

/-- One line of `WriteBreakPoint`. -/
def renderBreakPointLine (bp : BreakPoint) : String :=
  "  " ++ toString bp.index ++ " " ++ bp.file ++ ":" ++ toString bp.line

/-- `WriteBreakPoints`. -/
def renderBreakPoints (bps : List BreakPoint) : List String :=
  if bps = [] then ["No breakpoints"]
  else "Breakpoints:" :: bps.map renderBreakPointLine

/-- `ConsoleUI::WriteFrames`: one line per frame, numbered from 1, the active
frame prefixed with an arrow. -/
def renderFrames (e : Engine) : List String :=
  e.stackFrames.enum.map (fun p =>
    (if p.1 = e.activeFrameIndex then "--> " else "    ") ++ "#" ++ toString (p.1 + 1) ++
      " " ++ p.2.name)

/-- Right-aligned four-column line number of `WriteCodeLines`
(`std::setw(4)`). -/
def pad4 (n : Nat) : String :=
  let s := toString n
  ⟨List.replicate (4 - s.length) ' '⟩ ++ s

/-- `ConsoleUI::WriteCodeLines`: the whole listing, the current line marked
with an arrow. -/
def renderCodeLines (e : Engine) : List String :=
  e.codeLines.map (fun p =>
    (if p.1 = e.breakLineNumber then "=>" else "  ") ++ pad4 p.1 ++ "  " ++ p.2)

/-- The help text of `PrintHelp` (the console writes it as one block). -/
def helpText : String :=
  "Debugger help\nCommands\n" ++
  "  b[reak] file:line          set breakpoint to some position\n" ++
  "  b[reak]                    list breakpoints\n" ++
  "  del[ete]                   delete a breakpoint\n" ++
  "  c[ont]                     run until program ends or hits a breakpoint\n" ++
  "  s[tep]                     step (into methods) one line\n" ++
  "  s[tep] o[ut]               step out of the current method\n" ++
  "  n[ext]                     go over one line, stepping over methods\n" ++
  "  w[here]                    display frames\n" ++
  "  f[rame]                    alias for where\n" ++
  "  l[ist]                     list program\n" ++
  "  up                         move to higher frame\n" ++
  "  down                       move to lower frame\n" ++
  "  v[ar] g[lobal]             show global variables\n" ++
  "  v[ar] l[ocal]              show local variables\n" ++
  "  p expression               evaluate expression and print its value\n" ++
  "  h[elp]                     print this help\n" ++
  "  <everything else>          evaluate\n"

/-- Intermediate outcome of the branch taken by the console dispatcher,
before the common epilogue of `EvaluateCommand`. -/
structure CBranch where
  legal : Bool
  signal : Bool
  writePrompt : Bool
  needResp : Bool
  needWhat : NeedWhat
  expr : List Char
  outs : List String
  calls : List EngineCall

/-- The branch outcome with every flag at its value on entry to
`EvaluateCommand` (after the resets of lines 147-152). -/
def cbase : CBranch := ⟨false, false, true, false, .nothing, [], [], []⟩

/-- The branch of `ConsoleUI::EvaluateCommand` selected by the regex chain.
`boost::bad_lexical_cast` in the `del`/`b` branches is caught (`try`/`catch`
at lines 177-183 and 189-199), leaving `is_legal_command` false. -/
def consoleBranch (e : Engine) (l : List Char) : CBranch :=
  match parseConsole l with
  | .brkList =>
    { cbase with
        legal := true
        outs := renderBreakPoints e.breakPoints
        calls := [.getBreakPoints] }
  | .brkDel a =>
    match lexicalCastSizeT a with
    | some idx =>
      if e.removeBreakPoint idx then
        { cbase with legal := true, calls := [.removeBreakPoint idx] }
      else
        { cbase with
            legal := true
            outs := ["Cannot remove breakpoint"]
            calls := [.removeBreakPoint idx] }
    | none => cbase
  | .brkAdd f ln =>
    match lexicalCastSizeT ln with
    | some n =>
      let bp : BreakPoint := ⟨0, ⟨f⟩, n, true⟩
      let r := e.addBreakPoint bp
      if r.1 then
        { cbase with
            legal := true
            outs := ["Added breakpoint:", renderBreakPointLine { bp with index := r.2 }]
            calls := [.addBreakPoint bp] }
      else
        { cbase with
            legal := true
            outs := ["Cannot add breakpoint"]
            calls := [.addBreakPoint bp] }
    | none => cbase
  | .cont => { cbase with legal := true, signal := true }
  | .step suf =>
    if suf = "o".toList ∨ suf = "out".toList then
      { cbase with legal := true, signal := true, calls := [.stepOut] }
    else
      { cbase with legal := true, signal := true, calls := [.step] }
  | .next => { cbase with legal := true, signal := true, calls := [.stepOver] }
  | .help => { cbase with legal := true, outs := [helpText] }
  | .up =>
    { cbase with
        legal := true
        outs := renderFrames e
        calls := [.shiftActiveFrame true, .getStackFrames, .getActiveFrameIndex] }
  | .down =>
    { cbase with
        legal := true
        outs := renderFrames e
        calls := [.shiftActiveFrame false, .getStackFrames, .getActiveFrameIndex] }
  | .whereFrame =>
    { cbase with
        legal := true
        outs := renderFrames e
        calls := [.getStackFrames, .getActiveFrameIndex] }
  | .listSrc =>
    { cbase with
        legal := true
        outs := renderCodeLines e
        calls := [.getCodeLines 0 0, .getBreakLineNumber] }
  | .evalExpr expr =>
    { cbase with
        legal := true
        writePrompt := false
        needResp := true
        needWhat := .evalRequest
        expr := expr }
  | .var suf =>
    if suf = "g".toList ∨ suf = "global".toList then
      { cbase with legal := true, writePrompt := false, needResp := true, needWhat := .globalVars }
    else if suf = "l".toList ∨ suf = "local".toList then
      { cbase with legal := true, writePrompt := false, needResp := true, needWhat := .localVars }
    else cbase
  | .other =>
    if l = [] then cbase
    else
      { cbase with legal := true, writePrompt := false, needResp := true, expr := l }

/-- One `ConsoleUI::EvaluateCommand` call: runs the selected branch, then the
common epilogue (lines 265-285): `Illegal command` when no branch accepted,
notify when a server response is needed, set `server_can_continue_` and
`server_will_continue_` for resumption commands, write the prompt (while
`server_will_continue_` is still set), and finally reset
`server_will_continue_` to false. -/
def consoleEval (e : Engine) (st0 : ConsoleState) (l : List Char) : ConsoleResult :=
  let st := { st0 with
    need_server_response := false
    need_what := NeedWhat.nothing
    expression_to_evaluate := ([] : List Char) }
  let b := consoleBranch e l
  let outs1 := b.outs ++ (if b.legal then [] else ["Illegal command"])
  let will := if b.signal then true else st.server_will_continue
  let canCont := if b.signal then true else st.server_can_continue
  let outs2 := outs1 ++
    (if b.writePrompt then [promptString (will || !e.isStopped)] else [])
  { state := { server_will_continue := false
               server_can_continue := canCont
               need_server_response := b.needResp
               need_what := b.needWhat
               expression_to_evaluate := b.expr }
    outputs := outs2
    calls := b.calls
    notified := b.needResp || b.signal
    legal := b.legal }

/-! ## The wire rendezvous loop (`RDIP::WaitForContinue`, lines 89-102)

The loop body runs under the rendezvous mutex; each `wait` on the condition
variable releases it, and the dispatcher's writes to the shared fields become
visible at the next wake.  An execution of the loop is therefore modelled
against a schedule: the list of wakes, each wake carrying the dispatcher
events that happened before it. -/

/-- A dispatcher event visible to the sleeping interpreter thread:
`signal_continue` (set `server_can_continue_` and notify) or storing a task
into `server_response_`. -/
inductive DEvt where
  | signalContinue
  | postTask (t : ITask)
deriving DecidableEq

/-- The rendezvous state as seen by `RDIP::WaitForContinue`, plus the log of
the tasks it has run (each run is immediately followed by posting
`process_server_response_` to the i/o service, so this log is also the order
of the posted follow-ups). -/
structure RState where
  can_continue : Bool
  task : Option ITask
  executed : List ITask
deriving DecidableEq

/-- Lines 93-98: if `server_response_` is set, run it and reset it to
`nullptr`. -/
def execPending (s : RState) : RState :=
  match s.task with
  | some t => { s with task := none, executed := s.executed ++ [t] }
  | none => s

/-- Effect of one dispatcher event on the shared fields. -/
def applyDEvt (s : RState) : DEvt → RState
  | .signalContinue => { s with can_continue := true }
  | .postTask t => { s with task := some t }

/-- The `while(!server_can_continue_)` loop: check the flag; when it is
still false, run a pending task, then wait; the next wake applies the
dispatcher events delivered meanwhile.  `none` models a run still blocked
after the whole schedule. -/
def runLoop : RState → List (List DEvt) → Option RState
  | s, [] => if s.can_continue then some s else none
  | s, evts :: rest =>
    if s.can_continue then some s
    else runLoop (evts.foldl applyDEvt (execPending s)) rest

/-- `RDIP::WaitForContinue`: reset `server_can_continue_` on entry, then run
the loop against the schedule. -/
def waitForContinue (s : RState) (wakes : List (List DEvt)) : Option RState :=
  runLoop { s with can_continue := false } wakes

/-! ## Port configuration (`RDIP::Initialize`, lines 74-87) -/

/-- Attempted match of `port=(\d+)` at the current position: the literal
`port=` followed by at least one digit; the capture is the maximal digit
run. -/
def portHere (l : List Char) : Option (List Char) :=
  if "port=".toList.isPrefixOf l then
    let ds := (l.drop 5).takeWhile (·.isDigit)
    if ds = [] then none else some ds
  else none

/-- `regex_search(str_debugger, match, reg_port)`: the leftmost match of
`port=(\d+)`. -/
def findPortDigits : List Char → Option (List Char)
  | [] => none
  | c :: rest => (portHere (c :: rest)) <|> findPortDigits rest

/-- `boost::lexical_cast<int>` on the digit capture; `none` models the
uncaught `bad_lexical_cast` on values not representable in a 32-bit `int`. -/
def lexicalCastInt (ds : List Char) : Option Nat :=
  if digitsToNat ds < 2 ^ 31 then some (digitsToNat ds) else none

/-- The port computed by `RDIP::Initialize`: 1234 unless a `port=<digits>`
match overrides it; `none` models the conversion throwing out of
`Initialize`. -/
def initializePort (l : List Char) : Option Nat :=
  match findPortDigits l with
  | none => some 1234
  | some ds => lexicalCastInt ds

/-- Declarative reading of the claim: position `i` of the configuration
string starts a `port=<digit>` occurrence. -/
def portMatchAtB (l : List Char) (i : Nat) : Bool :=
  "port=".toList.isPrefixOf (l.drop i) &&
    match l.drop (i + 5) with
    | c :: _ => c.isDigit
    | [] => false

/-- The port the acceptor actually listens on: the `int` computed by
`Initialize` is handed to `tcp::endpoint(tcp::v4(), port)` in the
`Connection` constructor (line 137), whose port parameter is an
`unsigned short`, so the non-negative value is reduced modulo `2^16`. -/
def listeningPort (l : List Char) : Option Nat :=
  (initializePort l).map (fun p => p % 65536)

/-! ## Remaining wire notifications (for reference in the escape claims) -/

/-- `RDIP::Connection::stopAtBreakpoint` (lines 326-334): the file attribute
is embedded raw, without `encodeXml`. -/
def stopAtBreakpointStr (bp : BreakPoint) : String :=
  "<breakpoint file=\"" ++ bp.file ++ "\" line=\"" ++ toString bp.line ++
    "\" threadId=\"1\"/>\n"

/-- `RDIP::Connection::suspendAt` (lines 336-344): the file attribute is
escaped. -/
def suspendAtStr (file : String) (line : Nat) : String :=
  "<suspended file=\"" ++ encodeXmlS file ++ "\" line=\"" ++ toString line ++
    "\" threadId=\"1\" frames=\"1\"/>\n"

/-! # Settling the claims -/

/-- A concrete engine oracle used by the closed witnesses and
counterexamples. -/
def testEngine : Engine where
  addBreakPoint := fun _ => (true, 1)
  removeBreakPoint := fun _ => true
  breakPoints := []
  isStopped := true
  stackFrames := []
  activeFrameIndex := 0
  localVariables := []
  globalVariables := []
  instanceVariables := fun _ => []
  evaluateExpression := fun s => ⟨"result", s, "String", 0, false⟩
  codeLines := []
  breakLineNumber := 0

/-- An initial console state (all flags clear, as the constructor sets). -/
def cState0 : ConsoleState := ⟨false, false, false, .nothing, []⟩

/-- An initial wire connection state. -/
def wState0 : WireState := ⟨false, none, none, []⟩

/-- The result the most recent completed interpreter task leaves for the
flush, as the claim describes it. -/
def taskResult (e : Engine) (expr : List Char) : ITask → List Variable
  | .getVars true => e.localVariables
  | .getVars false => e.globalVariables
  | .getInstanceVars oid => e.instanceVariables oid
  | .evalExpr => if expr = [] then [] else [e.evaluateExpression ⟨expr⟩]

/-- The breakpoint the wire dispatcher passes to the engine for an
add-breakpoint line: backslashes in the file replaced by `/`, the line
converted with 32-bit `atoi` (0 on non-numeric text, saturated at `INT_MAX`
on overflow) and then assigned to the `size_t` field. -/
def wireBp (f ln : List Char) : BreakPoint :=
  ⟨0, ⟨replaceAllChar bslash ['/'] f⟩, toSizeT (atoiVal ln), true⟩

/-- The concrete wire command `b d\s:7` (the file argument contains a
backslash). -/
def c8cmd : List Char := ['b', ' ', 'd', bslash, 's', ':', '7']

/-- The console commands after which the dispatcher itself writes the prompt
(everything except the interpreter-routed requests, which defer it). -/
def writesPromptB (l : List Char) : Bool :=
  match parseConsole l with
  | .evalExpr _ => false
  | .var suf =>
    !(decide (suf = "g".toList ∨ suf = "global".toList) ||
      decide (suf = "l".toList ∨ suf = "local".toList))
  | .other => decide (l = [])
  | _ => true

/-- The console commands that request resumption
(continue/step/step-out/step-over). -/
def isResumptionB (l : List Char) : Bool :=
  match parseConsole l with
  | .cont => true
  | .step _ => true
  | .next => true
  | _ => false

/-! # Theorems -/

theorem replaceAllChar_append (c : Char) (rep a b : List Char) :
    replaceAllChar c rep (a ++ b) = replaceAllChar c rep a ++ replaceAllChar c rep b := by
  induction a with
  | nil => rfl
  | cons x xs ih =>
    simp only [List.cons_append, replaceAllChar]
    split <;> simp [ih]

theorem replaceAllChar_not_mem (c : Char) (rep : List Char) {a : List Char} (h : c ∉ a) :
    replaceAllChar c rep a = a := by
  induction a with
  | nil => rfl
  | cons x xs ih =>
    simp only [List.mem_cons, not_or] at h
    simp only [replaceAllChar]
    rw [if_neg (fun hx => h.1 hx.symm), ih h.2]

theorem encodeXml_cons (c : Char) (s : List Char) :
    encodeXml (c :: s) = encChar c ++ encodeXml s := by
  have h1 : replaceAllChar '&' "&amp;".toList (c :: s) =
      (if c = '&' then "&amp;".toList else [c]) ++ replaceAllChar '&' "&amp;".toList s := by
    simp only [replaceAllChar]; split <;> simp
  unfold encodeXml
  rw [h1, replaceAllChar_append, replaceAllChar_append, replaceAllChar_append,
    replaceAllChar_append]
  congr 1
  by_cases ha : c = '&'
  · subst ha; decide
  · rw [if_neg ha]
    by_cases hq : c = '"'
    · subst hq; decide
    · by_cases hl : c = '<'
      · subst hl; decide
      · by_cases hg : c = '>'
        · subst hg; decide
        · by_cases hp : c = apos
          · subst hp; decide
          · simp [replaceAllChar, encChar, ha, hq, hl, hg, hp]

theorem encodeXml_eq_flatMap (s : List Char) : encodeXml s = s.flatMap encChar := by
  induction s with
  | nil => rfl
  | cons c s ih => rw [encodeXml_cons, ih, List.flatMap_cons]

theorem decodeXml_encChar (c : Char) (t : List Char) :
    decodeXml (encChar c ++ t) = (decodeXml t).map (fun u => c :: u) := by
  by_cases ha : c = '&'
  · subst ha; rfl
  · by_cases hq : c = '"'
    · subst hq; rfl
    · by_cases hl : c = '<'
      · subst hl; rfl
      · by_cases hg : c = '>'
        · subst hg; rfl
        · by_cases hp : c = apos
          · subst hp; rfl
          · have he : encChar c ++ t = c :: t := by
              simp [encChar, ha, hq, hl, hg, hp]
            rw [he, decodeXml.eq_def]
            simp [ha, hl]

/-- C3 (part): the escape round-trip for `encodeXml` itself. -/
theorem decodeXml_encodeXml (s : List Char) : decodeXml (encodeXml s) = some s := by
  induction s with
  | nil => rfl
  | cons c s ih => rw [encodeXml_cons, decodeXml_encChar, ih]; rfl

/-- C6: dispatching `exit` on the wire first sets `server_can_continue_` to
true and notifies the rendezvous condition variable, and only then calls the
engine's `Stop()` — for every engine, the action trace is exactly this
sequence. -/
theorem c6_exit_order (e : Engine) :
    wireEval e "exit".toList =
      some [.setCanContinue true, .notifyAll, .call .stop] := rfl

/-- C10: the interpreter-side producers overwrite the shared buffer (their
result never depends on its previous contents), evaluating an empty
expression leaves it empty without any engine call, and flushing emits
exactly the most recent task's result and clears the buffer. -/
theorem c10_variables_buffer :
    (∀ (e : Engine) (expr : List Char) (b1 b2 : List Variable) (t : ITask),
      (runITask e expr b1 t).1 = (runITask e expr b2 t).1) ∧
    (∀ (e : Engine) (b : List Variable), runITask e [] b .evalExpr = ([], [], [])) ∧
    (∀ (e : Engine) (expr : List Char) (b : List Variable) (t : ITask) (kind : String),
      sendVariables kind (runITask e expr b t).1 =
        ("<variables>\n" ++ String.join ((taskResult e expr t).map (renderVariable kind)) ++
          "</variables>\n", [])) := by
  refine ⟨fun e expr b1 b2 t => ?_, fun e b => rfl, fun e expr b t kind => ?_⟩
  · cases t with
    | getVars isLocal => cases isLocal <;> rfl
    | getInstanceVars oid => rfl
    | evalExpr => rfl
  · cases t with
    | getVars isLocal => cases isLocal <;> rfl
    | getInstanceVars oid => rfl
    | evalExpr =>
      by_cases h : expr = []
      · subst h; rfl
      · simp only [runITask, taskResult, if_neg h]; rfl

/-- C1 (counterexample): the dispatcher performs no `Busy` check.  On the
wire, `v l` followed by `v inspect x` (with the first task still pending)
replaces the pending task and logs nothing; on the console, `p a` followed by
`p b` replaces the pending evaluation and prints no `Illegal command`. -/
theorem c1_busy_counterexample :
    (applyWTrace wState0 ((wireEval testEngine "v l".toList).getD [])).server_response =
        some (.getVars true) ∧
    (applyWTrace (applyWTrace wState0 ((wireEval testEngine "v l".toList).getD []))
        ((wireEval testEngine "v inspect x".toList).getD [])).server_response =
        some .evalExpr ∧
    (applyWTrace (applyWTrace wState0 ((wireEval testEngine "v l".toList).getD []))
        ((wireEval testEngine "v inspect x".toList).getD [])).expression_to_eval =
        "x".toList ∧
    ((wireEval testEngine "v inspect x".toList).getD []).all (fun a => !(isLog a)) = true ∧
    (consoleEval testEngine cState0 "p a".toList).state.need_what = NeedWhat.evalRequest ∧
    (consoleEval testEngine
        (consoleEval testEngine cState0 "p a".toList).state "p b".toList).state.expression_to_evaluate =
        "b".toList ∧
    "Illegal command" ∉
      (consoleEval testEngine
        (consoleEval testEngine cState0 "p a".toList).state "p b".toList).outputs := by
  refine ⟨rfl, rfl, rfl, rfl, rfl, rfl, ?_⟩
  decide

/-- C1 (amended): the dispatchers never reject an interpreter-routed command
as busy: whatever task is pending in the current state, a new `v l` on the
wire stores `getVars local` into `server_response_` (overwriting the pending
task) without logging, and a new `p x` on the console sets up an evaluation
request without printing `Illegal command`. -/
theorem c1_pending_task_replaced :
    ∀ (e : Engine) (st : WireState) (cst : ConsoleState),
      (applyWTrace st ((wireEval e "v l".toList).getD [])).server_response =
          some (.getVars true) ∧
      (applyWTrace st ((wireEval e "v l".toList).getD [])).process_server_response =
          some "local" ∧
      ((wireEval e "v l".toList).getD []).all (fun a => !(isLog a)) = true ∧
      (consoleEval e cst "p x".toList).state.need_what = NeedWhat.evalRequest ∧
      (consoleEval e cst "p x".toList).state.need_server_response = true ∧
      "Illegal command" ∉ (consoleEval e cst "p x".toList).outputs := by
  intro e st cst
  refine ⟨rfl, rfl, rfl, rfl, rfl, ?_⟩
  simp [consoleEval, consoleBranch, parseConsole, matchBrkList, matchDelCmd, matchBrkCmd,
    matchContCmd, matchStepConsole, matchNextCmd, matchHelpCmd, matchUpCmd, matchDownCmd,
    matchWhereCmd, matchFrameConsole, matchListCmd, matchEvalCmd, matchKw, dropWs, isWs,
    delArg, wsRests, cbase]

/-- C2 (counterexample): a schedule in which the dispatcher posts a task and
signals continue before the next wake.  The wake that resumes execution
carries the pending task: the loop terminates with `server_response_` still
set and the task never executed — refuting that every posted task executes
strictly before resumption. -/
theorem c2_resume_wake_carries_task :
    waitForContinue ⟨false, none, []⟩
        [[DEvt.postTask (ITask.getVars true), DEvt.signalContinue]] =
      some ⟨true, some (ITask.getVars true), []⟩ := by decide

/-- Dispatcher events never touch the execution log. -/
theorem foldl_applyDEvt_executed (evts : List DEvt) (s : RState) :
    (evts.foldl applyDEvt s).executed = s.executed := by
  induction evts generalizing s with
  | nil => rfl
  | cons e rest ih => cases e <;> simp [List.foldl_cons, applyDEvt, ih]

/-- C2 (amended): in the wire rendezvous loop, a wake that finds
`may_continue` false performs the pending task exactly once and clears the
slot before re-blocking; a wake that finds `may_continue` true exits at once,
leaving a simultaneously pending task stored and unexecuted; and the log of
executed tasks only ever grows along a run. -/
theorem c2_rendezvous_loop_amended :
    (∀ (s : RState) (wakes : List (List DEvt)), s.can_continue = true →
      runLoop s wakes = some s) ∧
    (∀ (s : RState) (evts : List DEvt) (rest : List (List DEvt)), s.can_continue = false →
      runLoop s (evts :: rest) = runLoop (evts.foldl applyDEvt (execPending s)) rest ∧
      (execPending s).task = none ∧
      (execPending s).executed = s.executed ++ s.task.toList) ∧
    (∀ (s : RState) (wakes : List (List DEvt)) (r : RState),
      runLoop s wakes = some r → s.executed <+: r.executed) := by
  refine ⟨fun s wakes h => ?_, fun s evts rest h => ?_, fun s wakes => ?_⟩
  · cases wakes <;> simp [runLoop, h]
  · refine ⟨by simp [runLoop, h], ?_, ?_⟩ <;> cases ht : s.task <;> simp [execPending, ht]
  · induction wakes generalizing s with
    | nil =>
      intro r hr
      simp only [runLoop] at hr
      split at hr
      · cases hr; exact List.prefix_refl _
      · cases hr
    | cons evts rest ih =>
      intro r hr
      simp only [runLoop] at hr
      split at hr
      · cases hr; exact List.prefix_refl _
      · have h1 := ih _ _ hr
        rw [foldl_applyDEvt_executed] at h1
        refine List.IsPrefix.trans ?_ h1
        cases ht : s.task <;> simp [execPending, ht]

/-- C2 (witness): the amended theorem at concrete states — an immediate-exit
wake preserves a pending task, and a blocked-side wake executes it. -/
theorem c2_rendezvous_loop_amended_witness :
    runLoop ⟨true, some ITask.evalExpr, []⟩ [] = some ⟨true, some ITask.evalExpr, []⟩ ∧
    (execPending ⟨false, some ITask.evalExpr, []⟩).task = none ∧
    (execPending ⟨false, some ITask.evalExpr, []⟩).executed = [ITask.evalExpr] :=
  ⟨c2_rendezvous_loop_amended.1 ⟨true, some ITask.evalExpr, []⟩ [] rfl,
   (c2_rendezvous_loop_amended.2.1 ⟨false, some ITask.evalExpr, []⟩ [] [] rfl).2.1,
   (c2_rendezvous_loop_amended.2.1 ⟨false, some ITask.evalExpr, []⟩ [] [] rfl).2.2⟩

/-- C3 (counterexample): the claim asserts the round-trip for every string
appearing in a wire XML attribute, but `sendVariables` embeds the `type`
attribute raw: a variable of type `A&B` is emitted with the unescaped
attribute text `A&B`, which a standard XML parser rejects rather than parses
back to `A&B`. -/
theorem c3_raw_type_attribute :
    sendVariables "local" [⟨"n", "v", "A&B", 0, false⟩] =
      ("<variables>\n<variable name=\"n\" kind=\"local\" value=\"v\" type=\"A&B\"" ++
        " hasChildren=\"false\" objectId=\"0\"/>\n</variables>\n", []) ∧
    decodeXml "A&B".toList = none := ⟨rfl, rfl⟩

/-- C3 (amended): `encodeXml` substitutes the five characters in the source
order, which makes it act character-wise (ampersands introduced by a later
substitution are never re-escaped), and every string it escapes parses back
exactly under standard XML entity decoding; the guarantee covers the strings
the wire actually escapes (variable names and values, the `suspended` file),
not the raw-embedded `type` attribute. -/
theorem c3_escape_roundtrip :
    (∀ s : List Char, encodeXml s = s.flatMap encChar) ∧
    (∀ s : List Char, decodeXml (encodeXml s) = some s) :=
  ⟨encodeXml_eq_flatMap, decodeXml_encodeXml⟩

/-- C4 (counterexample): a wire `del` whose digit argument overflows 64 bits
makes `boost::lexical_cast<size_t>` throw, and the wire dispatcher has no
handler: the error escapes `evaluateCommand` (`none`), refuting that no
numeric-parse failure escapes the dispatcher. -/
theorem c4_wire_overflow_escapes :
    wireEval testEngine "del 18446744073709551616".toList = none := by decide

/-- C4 (amended): on the console, `del` and add-breakpoint lines whose
numeric argument the conversion rejects (non-numeric text, an empty capture,
or a magnitude of `2^64` and beyond) get `Illegal command` and no engine
call, the `bad_lexical_cast` being caught; sign-led numeric arguments are
not rejected — boost skips `+` and wraps `-` for the unsigned target, so
e.g. `b x:-5` adds a breakpoint at line `2^64 - 5`.  On the wire, the `del`
and `frame` patterns only accept digit strings, but when those digits
overflow, the conversion error escapes the dispatcher; and an add-breakpoint
line with a non-numeric line argument is not rejected at all — `atoi` turns
it into 0 and the breakpoint is passed to the engine. -/
theorem c4_numeric_rejection_amended :
    (∀ (e : Engine) (st : ConsoleState) (l a : List Char),
      parseConsole l = .brkDel a → lexicalCastSizeT a = none →
      "Illegal command" ∈ (consoleEval e st l).outputs ∧ (consoleEval e st l).calls = []) ∧
    (∀ (e : Engine) (st : ConsoleState) (l f ln : List Char),
      parseConsole l = .brkAdd f ln → lexicalCastSizeT ln = none →
      "Illegal command" ∈ (consoleEval e st l).outputs ∧ (consoleEval e st l).calls = []) ∧
    (∀ (e : Engine) (st : ConsoleState) (l f ln : List Char) (v : Nat),
      parseConsole l = .brkAdd f ln → lexicalCastSizeT ln = some v →
      (consoleEval e st l).calls = [.addBreakPoint ⟨0, ⟨f⟩, v, true⟩] ∧
      (consoleEval e st l).legal = true) ∧
    (∀ (e : Engine) (l a : List Char),
      parseWireCmd l = .brkDel a → lexicalCastSizeT a = none → wireEval e l = none) ∧
    (∀ (e : Engine) (l a : List Char),
      parseWireCmd l = .frame a → lexicalCastSizeT a = none → wireEval e l = none) ∧
    (∀ (e : Engine) (l f ln : List Char),
      parseWireCmd l = .brk f ln →
      (wireEval e l).isSome = true ∧
      callsOf ((wireEval e l).getD []) = [.addBreakPoint (wireBp f ln)]) := by
  refine ⟨fun e st l a hp hc => ?_, fun e st l f ln hp hc => ?_,
    fun e st l f ln v hp hc => ?_,
    fun e l a hp hc => ?_, fun e l a hp hc => ?_, fun e l f ln hp => ?_⟩
  · simp [consoleEval, consoleBranch, hp, hc, cbase]
  · simp [consoleEval, consoleBranch, hp, hc, cbase]
  · simp only [consoleEval, consoleBranch, hp, hc]
    split <;> simp [cbase]
  · simp [wireEval, hp, hc]
  · simp [wireEval, hp, hc]
  · simp only [wireEval, hp, wireBp]
    split <;> simp [callsOf]

/-- C4 (witness): the amended theorem at concrete inputs — console and wire
`del` with an overflowing index, console `b x:-5` accepted with the wrapped
line `2^64 - 5`, and a wire breakpoint at `foo:bar`. -/
theorem c4_numeric_rejection_witness :
    ("Illegal command" ∈
        (consoleEval testEngine cState0 "del 18446744073709551616".toList).outputs ∧
      (consoleEval testEngine cState0 "del 18446744073709551616".toList).calls = []) ∧
    (consoleEval testEngine cState0 "b x:-5".toList).calls =
      [.addBreakPoint ⟨0, "x", 18446744073709551611, true⟩] ∧
    wireEval testEngine "del 18446744073709551617".toList = none ∧
    callsOf ((wireEval testEngine "b foo:bar".toList).getD []) =
      [.addBreakPoint ⟨0, "foo", 0, true⟩] := by
  refine ⟨c4_numeric_rejection_amended.1 testEngine cState0
      "del 18446744073709551616".toList "18446744073709551616".toList (by decide) (by decide),
    ((c4_numeric_rejection_amended.2.2.1 testEngine cState0 "b x:-5".toList
      "x".toList "-5".toList 18446744073709551611 (by decide) (by decide)).1).trans (by decide),
    c4_numeric_rejection_amended.2.2.2.1 testEngine
      "del 18446744073709551617".toList "18446744073709551617".toList (by decide) (by decide),
    ((c4_numeric_rejection_amended.2.2.2.2.2 testEngine "b foo:bar".toList
      "foo".toList "bar".toList (by decide)).2).trans (by decide)⟩

/-- C8: for every wire add-breakpoint command, the engine receives the
breakpoint with backslashes in the file replaced by `/`; when the engine
accepts, exactly one element `<breakpointAdded no="<index>"
location="<file>:<line>"/>` (newline-terminated, with the engine-assigned
index) is sent; when it refuses, nothing is sent and the dispatcher only
logs. -/
theorem c8_wire_add_breakpoint (e : Engine) (cmd f ln : List Char)
    (h : parseWireCmd cmd = .brk f ln) :
    (wireEval e cmd).isSome = true ∧
    callsOf ((wireEval e cmd).getD []) = [.addBreakPoint (wireBp f ln)] ∧
    sendsOf ((wireEval e cmd).getD []) =
      (if (e.addBreakPoint (wireBp f ln)).1 then
        ["<breakpointAdded no=\"" ++ toString (e.addBreakPoint (wireBp f ln)).2 ++
          "\" location=\"" ++ (wireBp f ln).file ++ ":" ++ toString (wireBp f ln).line ++
          "\"/>\n"]
       else []) ∧
    ((e.addBreakPoint (wireBp f ln)).1 = false →
      (wireEval e cmd).getD [] =
        [.call (.addBreakPoint (wireBp f ln)), .log "Adding breakpoint failed\n."]) := by
  simp only [wireEval, h, wireBp]
  split <;> rename_i hr <;>
    simp_all [callsOf, sendsOf, wireBp, renderBreakPointLine]

/-- Stepping through the head of a pattern list built from an
`Option`-returning matcher. -/
theorem headD_filterMap_mapEntry {α β : Type} (m : List Char → Option α) (g : α → β)
    (ms : List (List Char → Option β)) (l : List Char) (d : β) :
    (((fun x => (m x).map g) :: ms).filterMap (fun f => f l)).headD d =
      (match m l with
       | some v => g v
       | none => (ms.filterMap (fun f => f l)).headD d) := by
  cases h : m l <;> simp [List.filterMap_cons, h]

/-- Stepping through the head of a pattern list built from a Bool matcher. -/
theorem headD_filterMap_ifEntry {β : Type} (c : List Char → Bool) (v : β)
    (ms : List (List Char → Option β)) (l : List Char) (d : β) :
    (((fun x => if c x then some v else none) :: ms).filterMap (fun f => f l)).headD d =
      (if c l then v else (ms.filterMap (fun f => f l)).headD d) := by
  by_cases h : c l <;> simp [List.filterMap_cons, h]

/-- C5 (counterexample): the patterns are not mutually exclusive.  The wire
line `b v inspect 1` is matched both by the add-breakpoint pattern (building
a breakpoint at `v inspect 1`, i.e. line 0) and by the unanchored
`v inspect` pattern (building an evaluation of `1`): two distinct commands.
First-match dispatch picks the breakpoint. -/
theorem c5_two_patterns_match :
    wireCmdMatches "b v inspect 1".toList =
      [WireCmd.brk [] "v inspect 1".toList, WireCmd.varInspect "1".toList] ∧
    WireCmd.brk [] "v inspect 1".toList ≠ WireCmd.varInspect "1".toList ∧
    parseWireCmd "b v inspect 1".toList = WireCmd.brk [] "v inspect 1".toList :=
  ⟨by decide, by decide, by decide⟩

/-- C5 (amended): both dispatchers are total, deterministic first-match
parsers: every line maps to the first command of the ordered pattern list
that matches it, or to the unknown/fallthrough outcome when none does; but
the patterns can overlap, with the earlier pattern winning, so a line can be
matched by two distinct commands of the grammar. -/
theorem c5_first_match_total (l : List Char) :
    parseWireCmd l = (wireCmdMatches l).headD WireCmd.unknown ∧
    parseConsole l = (consoleCmdMatches l).headD ConsoleCmd.other := by
  constructor
  · unfold wireCmdMatches wirePatternList
    rw [headD_filterMap_mapEntry, headD_filterMap_mapEntry, headD_filterMap_ifEntry,
      headD_filterMap_ifEntry, headD_filterMap_ifEntry, headD_filterMap_ifEntry,
      headD_filterMap_ifEntry, headD_filterMap_mapEntry, headD_filterMap_ifEntry,
      headD_filterMap_ifEntry, headD_filterMap_ifEntry, headD_filterMap_mapEntry,
      headD_filterMap_ifEntry, headD_filterMap_ifEntry, headD_filterMap_mapEntry]
    simp only [List.filterMap_nil, List.headD_nil]
    unfold parseWireCmd
    cases matchBrkCmd l with
    | some v => rfl
    | none =>
    cases matchDelCmd l with
    | some v => rfl
    | none =>
    cases matchStartCmd l with
    | true => rfl
    | false =>
    cases matchContCmd l with
    | true => rfl
    | false =>
    cases matchExitCmd l with
    | true => rfl
    | false =>
    cases matchWhereCmd l with
    | true => rfl
    | false =>
    cases matchThreadListCmd l with
    | true => rfl
    | false =>
    cases matchFrameWire l with
    | some v => rfl
    | none =>
    cases matchStepWire l with
    | true => rfl
    | false =>
    cases matchFinishCmd l with
    | true => rfl
    | false =>
    cases matchNextCmd l with
    | true => rfl
    | false =>
    cases matchVarInspect l with
    | some v => rfl
    | none =>
    cases matchVarLocalCmd l with
    | true => rfl
    | false =>
    cases matchVarGlobalCmd l with
    | true => rfl
    | false =>
    cases matchVarInstance l with
    | some v => rfl
    | none => rfl
  · unfold consoleCmdMatches consolePatternList
    rw [headD_filterMap_ifEntry, headD_filterMap_mapEntry, headD_filterMap_mapEntry,
      headD_filterMap_ifEntry, headD_filterMap_mapEntry, headD_filterMap_ifEntry,
      headD_filterMap_ifEntry, headD_filterMap_ifEntry, headD_filterMap_ifEntry,
      headD_filterMap_ifEntry, headD_filterMap_ifEntry, headD_filterMap_ifEntry,
      headD_filterMap_mapEntry, headD_filterMap_mapEntry]
    simp only [List.filterMap_nil, List.headD_nil]
    unfold parseConsole
    cases matchBrkList l with
    | true => rfl
    | false =>
    cases matchDelCmd l with
    | some v => rfl
    | none =>
    cases matchBrkCmd l with
    | some v => rfl
    | none =>
    cases matchContCmd l with
    | true => rfl
    | false =>
    cases matchStepConsole l with
    | some v => rfl
    | none =>
    cases matchNextCmd l with
    | true => rfl
    | false =>
    cases matchHelpCmd l with
    | true => rfl
    | false =>
    cases matchUpCmd l with
    | true => rfl
    | false =>
    cases matchDownCmd l with
    | true => rfl
    | false =>
    cases matchWhereCmd l with
    | true => rfl
    | false =>
    cases matchFrameConsole l with
    | true => rfl
    | false =>
    cases matchListCmd l with
    | true => rfl
    | false =>
    cases matchEvalCmd l with
    | some v => rfl
    | none =>
    cases matchVarCmd l with
    | some v => rfl
    | none => rfl

/-- C7: after every locally-executed console command the dispatcher writes
the prompt `sudb (<state>): ` last, with `<state>` = `running` exactly when
the engine is not stopped or the command requested resumption (the prompt is
written before `server_will_continue_` is reset, so it reads `running` right
after a resumption command even while `IsStopped()` is still true). -/
theorem c7_prompt_state (e : Engine) (st : ConsoleState) (l : List Char)
    (h1 : st.server_will_continue = false) (h2 : writesPromptB l = true) :
    (consoleEval e st l).outputs.getLast? =
      some (promptString (isResumptionB l || !e.isStopped)) := by
  have hb : (consoleBranch e l).writePrompt = true ∧
      (consoleBranch e l).signal = isResumptionB l := by
    cases hp : parseConsole l
    case brkList => simp [consoleBranch, isResumptionB, hp, cbase]
    case brkDel a =>
      rcases hc : lexicalCastSizeT a with _ | idx
      · simp [consoleBranch, isResumptionB, hp, hc, cbase]
      · by_cases hr : e.removeBreakPoint idx <;>
          simp [consoleBranch, isResumptionB, hp, hc, hr, cbase]
    case brkAdd f ln =>
      rcases hc : lexicalCastSizeT ln with _ | n
      · simp [consoleBranch, isResumptionB, hp, hc, cbase]
      · by_cases hr : (e.addBreakPoint ⟨0, ⟨f⟩, n, true⟩).1 <;>
          simp [consoleBranch, isResumptionB, hp, hc, hr, cbase]
    case cont => simp [consoleBranch, isResumptionB, hp, cbase]
    case step suf =>
      refine ⟨?_, ?_⟩ <;>
      · simp only [consoleBranch, isResumptionB, hp]
        split <;> rfl
    case next => simp [consoleBranch, isResumptionB, hp, cbase]
    case help => simp [consoleBranch, isResumptionB, hp, cbase]
    case up => simp [consoleBranch, isResumptionB, hp, cbase]
    case down => simp [consoleBranch, isResumptionB, hp, cbase]
    case whereFrame => simp [consoleBranch, isResumptionB, hp, cbase]
    case listSrc => simp [consoleBranch, isResumptionB, hp, cbase]
    case evalExpr expr => simp [writesPromptB, hp] at h2
    case var suf =>
      simp only [writesPromptB, hp, Bool.not_eq_true', Bool.or_eq_false_iff,
        decide_eq_false_iff_not] at h2
      simp only [consoleBranch, isResumptionB, hp]
      rw [if_neg h2.1, if_neg h2.2]
      exact ⟨rfl, rfl⟩
    case other =>
      simp only [writesPromptB, hp, decide_eq_true_eq] at h2
      simp only [consoleBranch, isResumptionB, hp]
      rw [if_pos h2]
      exact ⟨rfl, rfl⟩
  have hsig : (if (consoleBranch e l).signal then true else false) = isResumptionB l := by
    rw [← hb.2]; cases (consoleBranch e l).signal <;> rfl
  simp only [consoleEval, hb.1, if_true, h1]
  rw [List.getLast?_concat, hsig]

/-- C7 (witness): the prompt right after `c` reads `running` although the
concrete engine still reports `IsStopped() = true`. -/
theorem c7_prompt_state_witness :
    (consoleEval testEngine cState0 "c".toList).outputs.getLast? =
      some "sudb (running): " :=
  (c7_prompt_state testEngine cState0 "c".toList rfl (by decide)).trans (by decide)

/-- `portHere` succeeds exactly when the declarative `port=<digit>` match
holds here, and then captures the maximal digit run. -/
theorem portHere_eq (x : List Char) :
    portHere x =
      (if ("port=".toList.isPrefixOf x &&
          match x.drop 5 with | c :: _ => c.isDigit | [] => false) = true
       then some ((x.drop 5).takeWhile (·.isDigit)) else none) := by
  unfold portHere
  by_cases hp : "port=".toList.isPrefixOf x = true
  · rcases hx : x.drop 5 with _ | ⟨c, t⟩
    · simp [hp]
    · by_cases hd : c.isDigit = true <;> simp [hp, hd, List.takeWhile_cons]
  · have ha : "port=".toList.isPrefixOf x = false := by
      cases hA : "port=".toList.isPrefixOf x
      · rfl
      · exact absurd hA hp
    rw [if_neg hp, ha, Bool.false_and]
    simp

/-- A `port=<digit>` match needs at least one character left. -/
theorem portMatchAtB_lt {l : List Char} {i : Nat} (h : portMatchAtB l i = true) :
    i < l.length := by
  by_contra hn
  have hd : l.drop i = [] := List.drop_of_length_le (Nat.le_of_not_lt hn)
  simp [portMatchAtB, hd, List.isPrefixOf] at h

/-- Shifting the declarative match under a cons. -/
theorem portMatchAtB_cons (c : Char) (rest : List Char) (j : Nat) :
    portMatchAtB (c :: rest) (j + 1) = portMatchAtB rest j := by
  simp [portMatchAtB, List.drop_succ_cons]

/-- When the scan finds nothing, no position matches. -/
theorem findPortDigits_none {l : List Char} (h : findPortDigits l = none) :
    ∀ i, portMatchAtB l i = false := by
  induction l with
  | nil =>
    intro i
    simp [portMatchAtB, List.drop_nil, List.isPrefixOf]
  | cons c rest ih =>
    intro i
    rw [findPortDigits] at h
    rcases hph : portHere (c :: rest) with _ | ds
    · rw [hph] at h
      simp only [Option.none_orElse] at h
      cases i with
      | zero =>
        have := portHere_eq (c :: rest)
        rw [hph] at this
        by_cases hb : ("port=".toList.isPrefixOf (c :: rest) &&
            match (c :: rest).drop 5 with | c :: _ => c.isDigit | [] => false) = true
        · rw [if_pos hb] at this; cases this
        · simpa [portMatchAtB] using hb
      | succ j => rw [portMatchAtB_cons]; exact ih h j
    · rw [hph] at h; cases h

/-- When the scan finds a capture, it is the digit run of the leftmost
`port=<digit>` match. -/
theorem findPortDigits_some {l : List Char} {ds : List Char}
    (h : findPortDigits l = some ds) :
    ∃ i, portMatchAtB l i = true ∧ (∀ j, j < i → portMatchAtB l j = false) ∧
      ds = ((l.drop i).drop 5).takeWhile (·.isDigit) := by
  induction l with
  | nil => cases h
  | cons c rest ih =>
    rw [findPortDigits] at h
    rcases hph : portHere (c :: rest) with _ | ds0
    · rw [hph] at h
      simp only [Option.none_orElse] at h
      obtain ⟨i, hi, hmin, hds⟩ := ih h
      refine ⟨i + 1, ?_, ?_, ?_⟩
      · rw [portMatchAtB_cons]; exact hi
      · intro j hj
        cases j with
        | zero =>
          have := portHere_eq (c :: rest)
          rw [hph] at this
          by_cases hb : ("port=".toList.isPrefixOf (c :: rest) &&
              match (c :: rest).drop 5 with | c :: _ => c.isDigit | [] => false) = true
          · rw [if_pos hb] at this; cases this
          · simpa [portMatchAtB] using hb
        | succ k =>
          rw [portMatchAtB_cons]
          exact hmin k (Nat.lt_of_succ_lt_succ hj)
      · simpa [List.drop_succ_cons] using hds
    · rw [hph] at h
      simp only [Option.some_orElse, Option.some.injEq] at h
      subst h
      have := portHere_eq (c :: rest)
      rw [hph] at this
      by_cases hb : ("port=".toList.isPrefixOf (c :: rest) &&
          match (c :: rest).drop 5 with | c :: _ => c.isDigit | [] => false) = true
      · rw [if_pos hb] at this
        refine ⟨0, ?_, ?_, ?_⟩
        · simpa [portMatchAtB] using hb
        · intro j hj; cases hj
        · simpa [List.drop_zero] using (Option.some.injEq _ _).mp this
      · rw [if_neg hb] at this; cases this

/-- The `int` that `RDIP::Initialize` computes, characterized against the
declarative leftmost `port=<n>` match: 1234 when no position matches, and
the conversion of the first match's digit run otherwise. -/
theorem initializePort_characterization :
    (∀ l : List Char, (∀ i, i < l.length → portMatchAtB l i = false) →
      initializePort l = some 1234) ∧
    (∀ (l : List Char) (i : Nat), portMatchAtB l i = true →
      (∀ j, j < i → portMatchAtB l j = false) →
      initializePort l = lexicalCastInt (((l.drop i).drop 5).takeWhile (·.isDigit))) := by
  constructor
  · intro l h
    rcases hf : findPortDigits l with _ | ds
    · simp [initializePort, hf]
    · obtain ⟨i, hi, -, -⟩ := findPortDigits_some hf
      exact absurd hi (by simp [h i (portMatchAtB_lt hi)])
  · intro l i hi hmin
    rcases hf : findPortDigits l with _ | ds
    · exact absurd hi (by simp [findPortDigits_none hf i])
    · obtain ⟨i', hi', hmin', hds⟩ := findPortDigits_some hf
      have hii : i = i' := by
        rcases Nat.lt_trichotomy i i' with hlt | heq | hgt
        · exact absurd hi (by simp [hmin' i hlt])
        · exact heq
        · exact absurd hi' (by simp [hmin i' hgt])
      subst hii
      simp [initializePort, hf, hds]

/-- C9 (counterexample): two refutations of "the listening port is the
decimal number n of the first `port=<n>` substring".  For `port=70000` the
number is parsed, but the acceptor endpoint's `unsigned short` port
truncates it: the session listens on 4464, not 70000.  For `port=2147483648`
the conversion throws out of `Initialize` and no port is produced at all. -/
theorem c9_port_counterexample :
    listeningPort "port=70000".toList = some 4464 ∧
    (4464 : Nat) ≠ 70000 ∧
    listeningPort "port=2147483648".toList = none := by
  refine ⟨by decide, by decide, by decide⟩

/-- C9 (amended): the decimal number n of the first `port=<n>` substring
found anywhere in the configuration string determines the port when
`n < 2^31`, with 1234 used when no such substring is present and all other
content having no effect; but the acceptor's port is an `unsigned short`, so
the session listens on n mod 65536, and a first match whose digits reach
`2^31` makes the conversion throw out of `Initialize` instead of producing a
port. -/
theorem c9_port_parsing_amended :
    (∀ l : List Char, (∀ i, i < l.length → portMatchAtB l i = false) →
      listeningPort l = some 1234) ∧
    (∀ (l : List Char) (i : Nat), portMatchAtB l i = true →
      (∀ j, j < i → portMatchAtB l j = false) →
      listeningPort l =
        (lexicalCastInt (((l.drop i).drop 5).takeWhile (·.isDigit))).map
          (fun p => p % 65536)) := by
  constructor
  · intro l h
    rw [listeningPort, initializePort_characterization.1 l h]
    rfl
  · intro l i hi hmin
    rw [listeningPort, initializePort_characterization.2 l i hi hmin]

/-- C9 (witness): the amended theorem at concrete configuration strings —
the first of two `port=` options wins, a string without any `port=<digit>`
occurrence falls back to 1234, and `port=70000` listens on 70000 mod 65536 =
4464. -/
theorem c9_port_parsing_witness :
    listeningPort "x port=80 port=99".toList = some 80 ∧
    listeningPort "no port here".toList = some 1234 ∧
    listeningPort "port=70000".toList = some 4464 :=
  ⟨(c9_port_parsing_amended.2 "x port=80 port=99".toList 2 (by decide)
      (by decide)).trans (by decide),
   c9_port_parsing_amended.1 "no port here".toList (by decide),
   (c9_port_parsing_amended.2 "port=70000".toList 0 (by decide)
      (by decide)).trans (by decide)⟩

/-- C8 (witness): the theorem at `b d\s:7` against the concrete engine — the
backslash is normalized and the reply carries the assigned index 1. -/
theorem c8_wire_add_breakpoint_witness :
    callsOf ((wireEval testEngine c8cmd).getD []) = [.addBreakPoint ⟨0, "d/s", 7, true⟩] ∧
    sendsOf ((wireEval testEngine c8cmd).getD []) =
      ["<breakpointAdded no=\"1\" location=\"d/s:7\"/>\n"] :=
  ⟨((c8_wire_add_breakpoint testEngine c8cmd ['d', bslash, 's'] ['7']
      (by decide)).2.1).trans (by decide),
   ((c8_wire_add_breakpoint testEngine c8cmd ['d', bslash, 's'] ['7']
      (by decide)).2.2.1).trans (by decide)⟩

end RDbg
